import Mathlib

/-!
# Verification of the open-review core pipeline

A shallow embedding of the core of the `open-review` GitHub action
(`src/llm/client.ts`: `LLMClient.parseReviewResponse` and the
`ReviewOrchestrator` class) together with proofs about it.

Modelling conventions:
* General JSON numbers are modelled as `Rat`; the line counters of the
  diff mapper and the `line` field of validated issues are modelled as
  `Int` (the new-file line numbers the claims quantify over are
  integers, and every arithmetic step of the source preserves
  integrality, so this is faithful on the claims' domain).
* `JSON.parse` output is modelled by the inductive type `Json`; a raw
  response string is represented by the parse outcome `Option Json`
  (`none` = the decode threw), since `JSON.parse` itself is a platform
  primitive external to the repository.
* Fallible external collaborators (the generative engine, the VCS
  client) are passed in as oracle functions; calls to them are recorded
  in an explicit `CallEvent` trace so that "performs no call" claims
  are statable.
* Thrown-and-caught JavaScript exceptions are modelled by `Except` /
  explicit fallback branches at exactly the `try`/`catch` boundaries of
  the source.
-/

/-! ## JavaScript value model -/

/-- A decoded JSON value, as produced by `JSON.parse`.  Numbers are
rationals (exact for every value relevant here); `undefined` does not
occur inside parsed JSON and is represented by `Option.none` at field
accesses. -/
inductive Json where
  | null
  | bool (b : Bool)
  | num (q : Rat)
  | str (s : String)
  | arr (elems : List Json)
  | obj (fields : List (String × Json))

/-- Property access `v.k` on a JS value: `some` for an object with the
field, `none` (= `undefined`) otherwise.  (Access on `null` throws in
JS; callers model that case separately.) -/
def Json.getField : Json → String → Option Json
  | .obj fields, k => (fields.find? (fun p => p.1 = k)).map (fun p => p.2)
  | _, _ => none

def Json.isNull : Json → Bool
  | .null => true
  | _ => false

/-- JS truthiness of a possibly-`undefined` value. -/
def jsTruthy : Option Json → Bool
  | none => false
  | some .null => false
  | some (.bool b) => b
  | some (.num q) => q ≠ 0
  | some (.str s) => s ≠ ""
  | some (.arr _) => true
  | some (.obj _) => true

/-- JS `x || d` for a possibly-`undefined` value. -/
def jsOr (v : Option Json) (d : Json) : Json :=
  match v with
  | some j => if jsTruthy (some j) then j else d
  | none => d

/-! ## `LLMClient.parseReviewResponse` (source: `src/llm/client.ts`) -/

/-- The result record returned by `parseReviewResponse`.  The TS type
annotates `summary : string`, but at runtime the untrusted payload's
`summary` field is passed through unchecked, so it is a `Json` here. -/
structure ParsedReview where
  reviews : List Json
  summary : Json

/-- The validation predicate of the source's `parsed.reviews.filter`:
`typeof review.line === 'number' && review.message` (truthy). -/
def validReview (r : Json) : Bool :=
  (match r.getField "line" with
   | some (Json.num _) => true
   | _ => false)
  && jsTruthy (r.getField "message")

/-- `{reviews: [], summary: 'Failed to parse review response'}` — the
catch-branch fallback of `parseReviewResponse`. -/
def parseFallback : ParsedReview :=
  { reviews := [], summary := Json.str "Failed to parse review response" }

/-- `LLMClient.parseReviewResponse` after `JSON.parse` of the
fence-stripped response.  The argument is the decode outcome: `none`
when `JSON.parse` threw.  The whole body runs inside `try`/`catch`, so
a `TypeError` from a property access on `null` (either `parsed.reviews`
with `parsed === null`, or `review.line` with a `null` array element
inside the filter callback) also lands in the fallback branch. -/
def parseReviewResponse (filePath : String) (decoded : Option Json) : ParsedReview :=
  match decoded with
  | none => parseFallback
  | some parsed =>
    if parsed.isNull then
      -- `parsed.reviews` throws a TypeError, caught by the surrounding catch
      parseFallback
    else
      match parsed.getField "reviews" with
      | some (Json.arr reviews) =>
        if reviews.any Json.isNull then
          -- `review.line` throws inside the filter callback, caught outside
          parseFallback
        else
          { reviews := reviews.filter validReview,
            summary := jsOr (parsed.getField "summary") (Json.str ("Reviewed " ++ filePath)) }
      | _ =>
        -- `!parsed.reviews || !Array.isArray(parsed.reviews)`
        { reviews := [], summary := jsOr (parsed.getField "summary") (Json.str "Review completed") }

/-- Spec-side predicate ("line field is an integer"): the candidate's
`line` field is a JSON number with denominator 1. -/
def lineIsInteger (r : Json) : Bool :=
  match r.getField "line" with
  | some (Json.num q) => q.den = 1
  | _ => false

/-- Source-side predicate: the candidate's `line` field is a JSON
number (`typeof review.line === 'number'`). -/
def lineIsNumber (r : Json) : Bool :=
  match r.getField "line" with
  | some (Json.num _) => true
  | _ => false

/-- Source-side predicate: the candidate's `message` field is truthy
(`review.message`). -/
def messageTruthy (r : Json) : Bool :=
  jsTruthy (r.getField "message")

/-! ## `ReviewOrchestrator.mapLineToDiff` (source: `src/llm/client.ts`)

The hunk-header regex `/@@ -\d+(?:,\d+)? \+(\d+)(?:,\d+)? @@/` is an
unanchored search; `matchAt` decides whether the pattern matches at a
given start position (the backtracking of the regex engine is
deterministic for this pattern, see the case analysis in `afterNum`),
and `findHunk` scans start positions left to right, returning the
captured new-start number of the leftmost match. -/

/-- Expect the literal character list `pat` at the head of `s`;
return the remainder on success. -/
def expectS : List Char → List Char → Option (List Char)
  | [], s => some s
  | _ :: _, [] => none
  | c :: p, x :: s => if x = c then expectS p s else none

/-- `\d+` (greedy): at least one ASCII digit, then the remainder. -/
def takeDigits1 : List Char → Option (List Char × List Char)
  | [] => none
  | c :: cs =>
    if c.isDigit then some (c :: cs.takeWhile Char.isDigit, cs.dropWhile Char.isDigit)
    else none

/-- `(?:,\d+)?` followed by a mandatory non-`,` continuation: if the
head is `,` the group must consume `,\d+` (otherwise the whole match
at this position fails, since the empty group would leave the `,` in
place where the pattern requires a space); otherwise the group matches
empty. -/
def afterNum : List Char → Option (List Char)
  | ',' :: cs =>
    match takeDigits1 cs with
    | some (_, s2) => some s2
    | none => none
  | s => some s

/-- `parseInt(ds, 10)` on a nonempty all-digit capture. -/
def parseDigits (ds : List Char) : Nat :=
  ds.foldl (fun a c => 10 * a + (c.toNat - 48)) 0

/-- Try to match the hunk-header pattern starting at the head of `s`;
on success return the captured `newStart`. -/
def matchAt (s : List Char) : Option Nat :=
  match expectS ("@@ -").data s with
  | none => none
  | some s1 =>
    match takeDigits1 s1 with
    | none => none
    | some (_, s2) =>
      match afterNum s2 with
      | none => none
      | some s3 =>
        match expectS (" +").data s3 with
        | none => none
        | some s4 =>
          match takeDigits1 s4 with
          | none => none
          | some (ds, s5) =>
            match afterNum s5 with
            | none => none
            | some s6 =>
              match expectS (" @@").data s6 with
              | none => none
              | some _ => some (parseDigits ds)

/-- `line.match(hunkRegex)`: leftmost match of the hunk-header pattern
anywhere in the character list, returning the captured `newStart`. -/
def findHunk : List Char → Option Nat
  | [] => none
  | c :: cs =>
    match matchAt (c :: cs) with
    | some n => some n
    | none => findHunk cs

/-- `line.startsWith(c)` for a single-character needle. -/
def startsWithCh (c : Char) (s : String) : Bool :=
  match s.data with
  | [] => false
  | c2 :: _ => c2 = c

/-- The scan loop of `mapLineToDiff`.  `i` is the 0-based index of the
head of the remaining line list within the whole patch; `currentLine`
is the JS `currentLine` counter; `inHunk`
the "inside hunk" flag. -/
def mapLineToDiffGo (targetLine : Int) :
    List String → Nat → Int → Bool → Option Nat
  | [], _, _, _ => none
  | line :: rest, i, currentLine, inHunk =>
    match findHunk line.data with
    | some newStart =>
      mapLineToDiffGo targetLine rest (i + 1) ((newStart : Int) - 1) true
    | none =>
      if !inHunk then
        mapLineToDiffGo targetLine rest (i + 1) currentLine inHunk
      else if startsWithCh '+' line then
        if currentLine + 1 = targetLine then some (i + 1)
        else mapLineToDiffGo targetLine rest (i + 1) (currentLine + 1) true
      else if startsWithCh '-' line then
        mapLineToDiffGo targetLine rest (i + 1) currentLine true
      else
        mapLineToDiffGo targetLine rest (i + 1) (currentLine + 1) true

/-- `ReviewOrchestrator.mapLineToDiff(targetLine, patchLines)`:
map a new-file line number to the 1-based raw position in the diff,
or `none`.  Only added (`+`) lines can be returned; context lines
advance the counter without being matched. -/
def mapLineToDiff (targetLine : Int) (patchLines : List String) : Option Nat :=
  mapLineToDiffGo targetLine patchLines 0 0 false

/-! ## `ReviewOrchestrator` data model (source: `src/llm/client.ts`,
types from `src/types`, which is not under `src/`; the record shapes
below follow the spec's §3 data model where the TS file is missing) -/

/-- A validated review issue (TS `ReviewIssue`).  `line` is a JS
number (an integer on the claims' domain, see the header comment);
`severity`, `category`, `suggestion` are optional strings
(`none` = the field is absent / `undefined`). -/
structure ReviewIssue where
  line : Int
  severity : Option String
  category : Option String
  message : String
  suggestion : Option String
deriving DecidableEq

/-- TS `ReviewResult`: validated issues plus a per-file summary. -/
structure ReviewResult where
  reviews : List ReviewIssue
  summary : String
deriving DecidableEq

/-- TS `ReviewComment`: the unit posted to GitHub. -/
structure ReviewComment where
  path : String
  line : Nat
  body : String
  side : String
deriving DecidableEq

/-- TS `PullRequestFile` (the fields the orchestrator reads).
`patch` is `Option String`: `none` = the API returned no patch. -/
structure PullRequestFile where
  filename : String
  status : String
  patch : Option String
deriving DecidableEq

/-- The orchestrator-relevant configuration fields (`maxFiles` is
`parseInt` output, hence an integer; the remaining `Config` fields
feed only the elided collaborators). -/
structure Config where
  maxFiles : Int
  postAsReview : Bool
deriving DecidableEq

/-- TS `ReviewSummary`: the aggregate report returned by `runReview`. -/
structure ReviewSummary where
  totalFiles : Nat
  filesReviewed : Nat
  totalComments : Nat
  criticalIssues : Nat
  warnings : Nat
  suggestions : Nat
  summary : String
deriving DecidableEq

/-- Per-file entry of the orchestrator's `fileResults` accumulator. -/
structure FileResult where
  filePath : String
  summary : String
  issueCount : Nat
  criticalCount : Nat
  warningCount : Nat
  suggestionCount : Nat
deriving DecidableEq

/-- Result of `ReviewOrchestrator.reviewFile` (comments, summary and
the three severity tallies). -/
structure FileReviewOut where
  comments : List ReviewComment
  summary : String
  criticalCount : Nat
  warningCount : Nat
  suggestionCount : Nat
deriving DecidableEq

/-- One outbound call to an external collaborator.  Payloads of the
posting calls are elided; the trace records which calls happen and in
which order. -/
inductive CallEvent where
  | reviewCode (filename : String)
  | generateSummary
  | createReview (event : String)
  | postReviewComments
  | postGeneralComment
deriving DecidableEq

/-! ## `ReviewOrchestrator` operations -/

/-- `ReviewOrchestrator.getSeverityEmoji`.  The argument is
`issue.severity`, possibly `undefined`; `undefined` falls to the
`default` branch. -/
def getSeverityEmoji : Option String → String
  | some "critical" => "🔴"
  | some "warning" => "🟡"
  | some "suggestion" => "💡"
  | some "info" => "ℹ️"
  | _ => "📝"

/-- The category label: `issue.category ? `**${...toUpperCase()}**` : ""`. -/
def categoryLabel : Option String → String
  | some s => if s ≠ "" then "**" ++ s.toUpper ++ "**" else ""
  | none => ""

/-- The comment body of `createReviewComments`:
`[`${emoji} ${label}`, "", issue.message].filter(Boolean).join("\n")`
(note that `filter(Boolean)` drops the empty separator string). -/
def commentBody (issue : ReviewIssue) : String :=
  String.intercalate "\n"
    (([getSeverityEmoji issue.severity ++ " " ++ categoryLabel issue.category,
       "",
       issue.message]).filter (fun s => s ≠ ""))

/-- `patch.split("\n")`, written as a structural recursion over the
character list. -/
def splitNewlinesGo : List Char → List Char → List String
  | [], acc => [String.mk acc.reverse]
  | '\n' :: cs, acc => String.mk acc.reverse :: splitNewlinesGo cs []
  | c :: cs, acc => splitNewlinesGo cs (c :: acc)

def splitNewlines (s : String) : List String := splitNewlinesGo s.data []

/-- `ReviewOrchestrator.createReviewComments`: map each issue's line
through `mapLineToDiff`, drop unmapped issues, and build one comment
per mapped issue. -/
def createReviewComments (filePath : String) (issues : List ReviewIssue)
    (patch : String) : List ReviewComment :=
  let patchLines := splitNewlines patch
  issues.foldr
    (fun issue acc =>
      match mapLineToDiff issue.line patchLines with
      | none => acc
      | some lineNumber =>
        { path := filePath, line := lineNumber, body := commentBody issue,
          side := "RIGHT" } :: acc)
    []

/-- The pure part of `ReviewOrchestrator.reviewFile`, applied to the
engine's result for this file: comment construction plus the three
severity tallies (computed over all validated issues). -/
def reviewFile (file : PullRequestFile) (result : ReviewResult) : FileReviewOut :=
  { comments := createReviewComments file.filename result.reviews (file.patch.getD ""),
    summary := result.summary,
    criticalCount := (result.reviews.filter (fun r => r.severity = some "critical")).length,
    warningCount := (result.reviews.filter (fun r => r.severity = some "warning")).length,
    suggestionCount := (result.reviews.filter
      (fun r => r.severity = some "suggestion" || r.severity = some "info")).length }

/-- `file.status === "removed" || !file.patch` (skip without
contacting the engine). -/
def skipFile (f : PullRequestFile) : Bool :=
  f.status = "removed" || (match f.patch with | none => true | some s => s = "")

/-- Whether the engine oracle succeeds on a file (the review call
completes instead of exhausting retries / failing fatally). -/
def engineOk (engine : PullRequestFile → Except Unit ReviewResult)
    (f : PullRequestFile) : Bool :=
  match engine f with
  | Except.ok _ => true
  | Except.error _ => false

/-- The per-file loop of `runReview`: the engine oracle returns
`Except.error` when the review call fails irrecoverably; that file is
caught-and-skipped (`// Continue with other files`).  Returns the
comment accumulator, the `fileResults` accumulator, and the engine
call trace, each in iteration order. -/
def reviewLoop (engine : PullRequestFile → Except Unit ReviewResult) :
    List PullRequestFile → List ReviewComment × List FileResult × List CallEvent
  | [] => ([], [], [])
  | f :: rest =>
    if skipFile f then
      reviewLoop engine rest
    else
      let out := reviewLoop engine rest
      match engine f with
      | Except.ok result =>
        let fr := reviewFile f result
        (fr.comments ++ out.1,
         { filePath := f.filename, summary := fr.summary,
           issueCount := fr.comments.length, criticalCount := fr.criticalCount,
           warningCount := fr.warningCount,
           suggestionCount := fr.suggestionCount } :: out.2.1,
         CallEvent.reviewCode f.filename :: out.2.2)
      | Except.error _ => (out.1, out.2.1, CallEvent.reviewCode f.filename :: out.2.2)

/-- `ReviewOrchestrator.runReview`, from the point where the changed
file list has been fetched.  `engine` is the generative-engine oracle
for per-file reviews; `overallSummary` the (total, internally
fallback-protected) result of `LLMClient.generateSummary`.  Returns
the aggregate report and the trace of outbound calls. -/
def runReview (cfg : Config) (files : List PullRequestFile)
    (engine : PullRequestFile → Except Unit ReviewResult)
    (overallSummary : String) : ReviewSummary × List CallEvent :=
  if files.length = 0 then
    ({ totalFiles := 0, filesReviewed := 0, totalComments := 0,
       criticalIssues := 0, warnings := 0, suggestions := 0,
       summary := "No files to review" }, [])
  else
    let filesToReview := if 0 < cfg.maxFiles then files.take cfg.maxFiles.toNat else files
    let looped := reviewLoop engine filesToReview
    let allComments := looped.1
    let fileResults := looped.2.1
    let totalComments := allComments.length
    let criticalIssues := (fileResults.map (fun r => r.criticalCount)).sum
    let warnings := (fileResults.map (fun r => r.warningCount)).sum
    let suggestions := (fileResults.map (fun r => r.suggestionCount)).sum
    let postEvents :=
      if 0 < totalComments then
        if cfg.postAsReview then [CallEvent.createReview "COMMENT"]
        else [CallEvent.postReviewComments, CallEvent.postGeneralComment]
      else
        if cfg.postAsReview then [CallEvent.createReview "APPROVE"]
        else [CallEvent.postGeneralComment]
    ({ totalFiles := files.length, filesReviewed := fileResults.length,
       totalComments := totalComments, criticalIssues := criticalIssues,
       warnings := warnings, suggestions := suggestions,
       summary := overallSummary },
     looped.2.2 ++ CallEvent.generateSummary :: postEvents)

/-! ## A model of valid unified diffs (for the `mapLineToDiff`
correctness claim).

The source consumes raw patch text; to state correctness over "every
valid unified diff" we build diffs from structured hunks and render
them to raw lines.  Rendering is canonical: `@@ -a,b +c,d @@` headers,
`+`/`-`/space line markers. -/

/-- Decimal digit character (for rendering hunk headers). -/
def digitChar : Nat → Char
  | 0 => '0' | 1 => '1' | 2 => '2' | 3 => '3' | 4 => '4'
  | 5 => '5' | 6 => '6' | 7 => '7' | 8 => '8' | _ => '9'

/-- Decimal digits of `n`, most significant first (fuel-indexed so
that it is structural and kernel-reducible). -/
def natDigitsAux : Nat → Nat → List Char
  | 0, _ => []
  | fuel + 1, n =>
    if n < 10 then [digitChar n]
    else natDigitsAux fuel (n / 10) ++ [digitChar (n % 10)]

def natDigits (n : Nat) : List Char := natDigitsAux (n + 1) n

/-- One line of a hunk body. -/
inductive HunkLine where
  | added (content : String)
  | removed (content : String)
  | context (content : String)
deriving DecidableEq

/-- Added and context lines advance the new-file line number; removed
lines do not. -/
def HunkLine.counted : HunkLine → Bool
  | .removed _ => false
  | _ => true

/-- Number of context/added lines (the new-file extent of a hunk body
segment). -/
def countNew (ls : List HunkLine) : Nat := (ls.filter HunkLine.counted).length

/-- A hunk: header numbers plus the body lines. -/
structure Hunk where
  oldStart : Nat
  oldCount : Nat
  newStart : Nat
  newCount : Nat
  lines : List HunkLine

/-- The rendered hunk body line: `+`, `-` or space marker followed by
the content. -/
def renderHunkLine : HunkLine → String
  | .added c => String.mk ('+' :: c.data)
  | .removed c => String.mk ('-' :: c.data)
  | .context c => String.mk (' ' :: c.data)

/-- The characters of the canonical hunk header
`@@ -oldStart,oldCount +newStart,newCount @@`. -/
def headerChars (h : Hunk) : List Char :=
  '@' :: '@' :: ' ' :: '-' ::
    (natDigits h.oldStart ++ ',' ::
      (natDigits h.oldCount ++ ' ' :: '+' ::
        (natDigits h.newStart ++ ',' ::
          (natDigits h.newCount ++ [' ', '@', '@']))))

def renderHeader (h : Hunk) : String := String.mk (headerChars h)

def renderHunk (h : Hunk) : List String :=
  renderHeader h :: h.lines.map renderHunkLine

/-- A unified diff: preamble lines (e.g. `---`/`+++` file headers)
followed by the hunks. -/
structure UnifiedDiff where
  preamble : List String
  hunks : List Hunk

def renderDiff (d : UnifiedDiff) : List String :=
  d.preamble ++ (d.hunks.map renderHunk).flatten

/-- Well-formedness of one hunk (the spec's validity notion): positive
new start and a header count consistent with the body. -/
def hunkWF (h : Hunk) : Prop :=
  1 ≤ h.newStart ∧ h.newCount = countNew h.lines

/-- A valid unified diff: no preamble line looks like a hunk header,
every hunk is well-formed, and hunks cover increasing, disjoint
new-file ranges. -/
def DiffWF (d : UnifiedDiff) : Prop :=
  (∀ s ∈ d.preamble, findHunk s.data = none) ∧
  (∀ h ∈ d.hunks, hunkWF h) ∧
  d.hunks.Pairwise (fun h1 h2 => h1.newStart + countNew h1.lines ≤ h2.newStart)

/-- New-file line number `t` is present in `d` as an added line with
content `c`: some hunk has `added c` at body index `j`, and the
context/added lines before it put it at new-file number
`newStart + countNew (take j)`. -/
def AddedAt (d : UnifiedDiff) (t : Nat) (c : String) : Prop :=
  ∃ h ∈ d.hunks, ∃ j : Fin h.lines.length,
    h.lines.get j = HunkLine.added c ∧
    h.newStart + countNew (h.lines.take j.val) = t

/-- New-file line number `t` is present in `d` as a context line with
content `c`. -/
def ContextAt (d : UnifiedDiff) (t : Nat) (c : String) : Prop :=
  ∃ h ∈ d.hunks, ∃ j : Fin h.lines.length,
    h.lines.get j = HunkLine.context c ∧
    h.newStart + countNew (h.lines.take j.val) = t

instance (h : Hunk) : Decidable (hunkWF h) := by
  unfold hunkWF; infer_instance

instance (d : UnifiedDiff) : Decidable (DiffWF d) := by
  unfold DiffWF; infer_instance

instance (d : UnifiedDiff) (t : Nat) (c : String) : Decidable (AddedAt d t c) := by
  unfold AddedAt; infer_instance

instance (d : UnifiedDiff) (t : Nat) (c : String) : Decidable (ContextAt d t c) := by
  unfold ContextAt; infer_instance

/-- A side condition about the **source's** unanchored header regex,
deliberately kept out of `DiffWF`: no hunk-body line's rendered
content contains text matching the hunk-header pattern.  Valid unified
diffs can violate it (e.g. a diff whose added line is
`x @@ -1 +100 @@`, as in a diff of a diff); on such diffs the source
misparses that body line as a hunk header and hijacks the line
counter, so the mapping claim fails — see the C1 counterexample. -/
def NoHeaderLikeContent (d : UnifiedDiff) : Prop :=
  ∀ h ∈ d.hunks, ∀ hl ∈ h.lines, findHunk (renderHunkLine hl).data = none

instance (d : UnifiedDiff) : Decidable (NoHeaderLikeContent d) := by
  unfold NoHeaderLikeContent; infer_instance

/-! ## Concrete example inputs -/

/-- An issue candidate whose `line` is the non-integer number `2.5`
and whose message is `"m"`. -/
def candFracLine : Json :=
  Json.obj [("line", Json.num ⟨5, 2, by decide, by decide⟩), ("message", Json.str "m")]

/-- Decoded payload `{"reviews":[{"line":2.5,"message":"m"}]}`. -/
def payloadFracLine : Json := Json.obj [("reviews", Json.arr [candFracLine])]

/-- Decoded payload `{"reviews":[null,{"line":2.5,"message":"m"}]}`:
a `null` element next to an individually valid candidate. -/
def payloadNullElem : Json :=
  Json.obj [("reviews", Json.arr [Json.null, candFracLine])]

/-- An issue candidate whose `message` field is present but JS-falsy
(`false`), with an integer `line`. -/
def candFalseMsg : Json :=
  Json.obj [("line", Json.num ⟨3, 1, by decide, by decide⟩),
            ("message", Json.bool false)]

/-- Decoded payload `{"reviews":[{"line":3,"message":false}]}`. -/
def payloadFalseMsg : Json := Json.obj [("reviews", Json.arr [candFalseMsg])]

/-- A one-hunk diff whose new-file line 1 is a context line:
`@@ -1,2 +1,2 @@` / ` ctx` / `+add`. -/
def diffCtxFirst : UnifiedDiff :=
  { preamble := [],
    hunks := [{ oldStart := 1, oldCount := 2, newStart := 1, newCount := 2,
                lines := [HunkLine.context "ctx", HunkLine.added "add"] }] }

/-- A valid one-hunk diff whose first added line's content contains
header-like text: `@@ -1,0 +1,2 @@` / `+x @@ -1 +100 @@` / `+y`.
New-file line 2 is the added line `y`. -/
def diffHijack : UnifiedDiff :=
  { preamble := [],
    hunks := [{ oldStart := 1, oldCount := 0, newStart := 1, newCount := 2,
                lines := [HunkLine.added "x @@ -1 +100 @@", HunkLine.added "y"] }] }

/-- A hunk starting at new-file line 10 followed by one context line,
one added line, one removed line, one added line (the body of the spec
§8 example, with the header counts made consistent with the body).
The first added line is new-file line 11. -/
def diffSpecExample : UnifiedDiff :=
  { preamble := ["--- a/f.ts", "+++ b/f.ts"],
    hunks := [{ oldStart := 5, oldCount := 2, newStart := 10, newCount := 3,
                lines := [HunkLine.context "a", HunkLine.added "b",
                          HunkLine.removed "c", HunkLine.added "d"] }] }

/-- A changed file with a minimal one-line patch. -/
def fileSmall : PullRequestFile :=
  { filename := "f.ts", status := "modified", patch := some "@@ -1,1 +1,1 @@\n+x" }

/-- An engine result holding a single validated issue with no
`severity` field. -/
def resNoSeverity : ReviewResult :=
  { reviews := [{ line := 1, severity := none, category := none,
                  message := "msg", suggestion := none }],
    summary := "s" }

/-- An engine result holding a single critical issue whose line (99)
maps to no diff position of `fileSmall`'s patch. -/
def resUnmappedCritical : ReviewResult :=
  { reviews := [{ line := 99, severity := some "critical", category := none,
                  message := "bad", suggestion := none }],
    summary := "s" }

/-- An engine oracle that fails irrecoverably on every file. -/
def engineAlwaysFails : PullRequestFile → Except Unit ReviewResult :=
  fun _ => Except.error ()

/-- An engine oracle that returns `resUnmappedCritical` for every file. -/
def engineCritical : PullRequestFile → Except Unit ReviewResult :=
  fun _ => Except.ok resUnmappedCritical

/-- An engine oracle that returns no issues for every file. -/
def engineClean : PullRequestFile → Except Unit ReviewResult :=
  fun _ => Except.ok { reviews := [], summary := "ok" }

/-- Five eligible changed files (for the `maxFiles` claim). -/
def filesFive : List PullRequestFile :=
  [{ filename := "a.ts", status := "modified", patch := some "@@ -1,1 +1,1 @@\n+a" },
   { filename := "b.ts", status := "modified", patch := some "@@ -1,1 +1,1 @@\n+b" },
   { filename := "c.ts", status := "modified", patch := some "@@ -1,1 +1,1 @@\n+c" },
   { filename := "d.ts", status := "modified", patch := some "@@ -1,1 +1,1 @@\n+d" },
   { filename := "e.ts", status := "modified", patch := some "@@ -1,1 +1,1 @@\n+e" }]

/-! # Theorems -/

/-! ## C2: the parser never throws; decode failure degrades to the
empty-issue fallback -/

/-- C2: `parseReviewResponse` is modelled as a total function (the
source wraps its whole body in `try`/`catch`, so no input can make it
throw), and whenever the structured decode of the fence-stripped
response fails, it returns an empty issue list together with the
non-empty parse-failure fallback summary. -/
theorem parse_decode_failure_falls_back (filePath : String) :
    parseReviewResponse filePath none =
      { reviews := [], summary := Json.str "Failed to parse review response" } ∧
    "Failed to parse review response" ≠ "" :=
  ⟨rfl, by decide⟩

/-! ## C3: what the validator actually discards -/

/-- C3 counterexample, three facets.
(1) The candidate `{"line": 2.5, "message": "m"}` has a non-integer
`line`, yet the validator keeps it — the source checks
`typeof review.line === 'number'`, not integrality.
(2) "Every remaining candidate passes through" is false: on
`{"reviews":[null,{"line":2.5,"message":"m"}]}` the property access on
the `null` element throws inside the filter callback, the surrounding
catch fires, and every candidate — including the individually valid
sibling — is discarded with the parse-failure fallback.
(3) A `message` that is present and not an empty string but JS-falsy
(here `false`) is also discarded, beyond "missing/empty". -/
theorem validator_keeps_noninteger_number_line :
    (lineIsNumber candFracLine = true ∧
      lineIsInteger candFracLine = false ∧
      messageTruthy candFracLine = true ∧
      (parseReviewResponse "f" (some payloadFracLine)).reviews = [candFracLine]) ∧
    (validReview candFracLine = true ∧
      parseReviewResponse "f" (some payloadNullElem) = parseFallback) ∧
    (candFalseMsg.getField "message" = some (Json.bool false) ∧
      lineIsNumber candFalseMsg = true ∧
      (parseReviewResponse "f" (some payloadFalseMsg)).reviews = []) :=
  ⟨⟨by decide, by decide, by decide, rfl⟩,
    ⟨by decide, rfl⟩,
    ⟨rfl, by decide, rfl⟩⟩

/-- C3 amended: on a decoded payload whose `reviews` field is an
array, the result is: the parse-failure fallback discarding every
candidate when any array element is `null` (the filter callback's
property access throws and the catch fires, dropping even well-formed
siblings); otherwise exactly the candidates whose `line` field is a
JSON number (of any kind, integral or not) and whose `message` field
is JS-truthy, passed through unmodified and in order. -/
theorem validator_filters_by_number_line_and_truthy_message
    (filePath : String) (parsed : Json) (reviews : List Json)
    (hr : parsed.getField "reviews" = some (Json.arr reviews)) :
    parseReviewResponse filePath (some parsed) =
      (if reviews.any Json.isNull then parseFallback
       else
        { reviews := reviews.filter (fun r => lineIsNumber r && messageTruthy r),
          summary := jsOr (parsed.getField "summary")
            (Json.str ("Reviewed " ++ filePath)) }) ∧
    ∀ r ∈ (parseReviewResponse filePath (some parsed)).reviews, r ∈ reviews := by
  have hpn : parsed.isNull = false := by
    cases parsed <;> first
      | rfl
      | (exfalso; simp [Json.getField] at hr)
  have hval : validReview = fun r => lineIsNumber r && messageTruthy r := by
    funext r
    rfl
  have hres : parseReviewResponse filePath (some parsed) =
      (if reviews.any Json.isNull then parseFallback
       else
        { reviews := reviews.filter (fun r => lineIsNumber r && messageTruthy r),
          summary := jsOr (parsed.getField "summary")
            (Json.str ("Reviewed " ++ filePath)) }) := by
    simp only [parseReviewResponse, hpn, Bool.false_eq_true, if_false, hr, hval]
  refine ⟨hres, ?_⟩
  intro r hmem
  rw [hres] at hmem
  by_cases hany : reviews.any Json.isNull = true
  · rw [if_pos hany] at hmem
    simp [parseFallback] at hmem
  · rw [if_neg hany] at hmem
    exact List.mem_of_mem_filter hmem

/-- C3 witness: the amended law evaluated on the concrete payload
`{"reviews":[{"line":2.5,"message":"m"}]}` (the non-`null` branch). -/
theorem validator_filters_witness :
    payloadFracLine.getField "reviews" = some (Json.arr [candFracLine]) ∧
    (parseReviewResponse "g" (some payloadFracLine) =
        (if [candFracLine].any Json.isNull then parseFallback
         else
          { reviews := [candFracLine].filter
              (fun r => lineIsNumber r && messageTruthy r),
            summary := jsOr (payloadFracLine.getField "summary")
              (Json.str ("Reviewed " ++ "g")) }) ∧
      ∀ r ∈ (parseReviewResponse "g" (some payloadFracLine)).reviews,
        r ∈ [candFracLine]) :=
  ⟨rfl,
    validator_filters_by_number_line_and_truthy_message "g" payloadFracLine
      [candFracLine] rfl⟩

/-! ## C5: behaviour on target lines below 1 -/

/-- C5 counterexample: `targetLine = 0` violates the precondition
`targetLine ≥ 1`, yet on the diff text `["@@ -1,1 +0,0 @@", "+x"]`
the scan returns position 2 instead of "no match": the `+0,0` hunk
header resets the counter to `-1` and the following added line
increments it to `0 = targetLine`. -/
theorem mapLineToDiff_zero_target_matches :
    (0 : Int) < 1 ∧ mapLineToDiff 0 ["@@ -1,1 +0,0 @@", "+x"] = some 2 :=
  ⟨by decide, by decide⟩

/-- Invariant behind the amended C5: once the counter is at least
`-1`, a target line that is negative — or zero, which forces `< 1` —
can never equal the post-increment counter, so the scan runs to the
end and returns `none`. -/
theorem mapLineToDiffGo_none_below_one (t : Int) (h1 : t < 1) (h2 : t ≠ 0) :
    ∀ (lines : List String) (i : Nat) (cur : Int), -1 ≤ cur →
      ∀ b : Bool, mapLineToDiffGo t lines i cur b = none := by
  intro lines
  induction lines with
  | nil => intro i cur hcur b; rfl
  | cons line rest ih =>
    intro i cur hcur b
    rw [mapLineToDiffGo]
    cases hfind : findHunk line.data with
    | some newStart =>
      simp only []
      exact ih (i + 1) ((newStart : Int) - 1) (by omega) true
    | none =>
      simp only []
      cases b with
      | false =>
        simp only [Bool.not_false, if_true]
        exact ih (i + 1) cur hcur false
      | true =>
        simp only [Bool.not_true, Bool.false_eq_true, if_false]
        by_cases hplus : startsWithCh '+' line = true
        · simp only [hplus, if_true]
          rw [if_neg (by omega)]
          exact ih (i + 1) (cur + 1) (by omega) true
        · simp only [hplus, if_false]
          by_cases hminus : startsWithCh '-' line = true
          · simp only [hminus, if_true]
            exact ih (i + 1) cur hcur true
          · simp only [hminus, if_false]
            exact ih (i + 1) (cur + 1) (by omega) true
  
/-- C5 amended: for every diff text, every negative target line — and
also target 0 unless a hunk header resets the new-start counter to 0,
as in the counterexample — yields `none` without throwing; that is,
the claimed "below 1 ⇒ no match" holds for all targets except the
exact value 0. -/
theorem mapLineToDiff_none_below_one (patchLines : List String) (t : Int)
    (h1 : t < 1) (h2 : t ≠ 0) : mapLineToDiff t patchLines = none :=
  mapLineToDiffGo_none_below_one t h1 h2 patchLines 0 0 (by omega) false

/-- C5 witness: the amended statement at target `-3` on a small
concrete diff. -/
theorem mapLineToDiff_none_below_one_witness :
    ((-3 : Int) < 1) ∧ ((-3 : Int) ≠ 0) ∧
    mapLineToDiff (-3) ["@@ -1,1 +1,1 @@", "+x"] = none :=
  ⟨by decide, by decide,
    mapLineToDiff_none_below_one ["@@ -1,1 +1,1 @@", "+x"] (-3) (by decide) (by decide)⟩

/-! ## C7: the zero-changed-files run -/

/-- C7: with an empty changed-file list `runReview` returns exactly
the all-zero report with summary "No files to review", and its
outbound-call trace is empty — no engine call (`reviewCode`,
`generateSummary`) and no posting call (`createReview`,
`postReviewComments`, `postGeneralComment`) is made. -/
theorem runReview_no_files (cfg : Config)
    (engine : PullRequestFile → Except Unit ReviewResult) (os : String) :
    runReview cfg [] engine os =
      ({ totalFiles := 0, filesReviewed := 0, totalComments := 0,
         criticalIssues := 0, warnings := 0, suggestions := 0,
         summary := "No files to review" }, []) :=
  rfl

/-! ## C9: comment bodies are independent of the `suggestion` field -/

/-- C9: rewriting every issue's `suggestion` field — in particular,
replacing it between any two values — produces character-for-character
the same comments: the suggestion text is never rendered into a
comment body. -/
theorem comments_independent_of_suggestion (filePath patch : String)
    (issues : List ReviewIssue) (f : ReviewIssue → Option String) :
    createReviewComments filePath
        (issues.map (fun i => { i with suggestion := f i })) patch =
      createReviewComments filePath issues patch := by
  simp only [createReviewComments, List.foldr_map]
  rfl

/-! ## C10: severity tallies are computed over all validated issues,
mapped or not -/

/-- C10: the per-file severity tallies are computed by filtering the
full validated-issue list, independent of whether each issue's line
maps to a diff position; a file's reported `issueCount` is its
mapped-comment count; and concretely, a run whose only issue is a
critical one at an unmappable line reports
`criticalIssues + warnings + suggestions = 1 > 0 = totalComments`. -/
theorem severity_tallies_include_unmapped_issues :
    (∀ (file : PullRequestFile) (res : ReviewResult),
        (reviewFile file res).criticalCount =
          (res.reviews.filter (fun r => r.severity = some "critical")).length ∧
        (reviewFile file res).warningCount =
          (res.reviews.filter (fun r => r.severity = some "warning")).length ∧
        (reviewFile file res).suggestionCount =
          (res.reviews.filter (fun r =>
            r.severity = some "suggestion" || r.severity = some "info")).length) ∧
    (reviewLoop engineCritical [fileSmall]).2.1 =
      [{ filePath := "f.ts", summary := "s", issueCount := 0,
         criticalCount := 1, warningCount := 0, suggestionCount := 0 }] ∧
    (runReview { maxFiles := 0, postAsReview := true } [fileSmall]
          engineCritical "o").1.criticalIssues +
      (runReview { maxFiles := 0, postAsReview := true } [fileSmall]
          engineCritical "o").1.warnings +
      (runReview { maxFiles := 0, postAsReview := true } [fileSmall]
          engineCritical "o").1.suggestions >
      (runReview { maxFiles := 0, postAsReview := true } [fileSmall]
          engineCritical "o").1.totalComments :=
  ⟨fun _ _ => ⟨rfl, rfl, rfl⟩, by decide, by decide⟩

/-! ## C6: a file whose review fails is caught and contributes
nothing; the run continues -/

/-- A failing file in the middle of the loop changes neither the
comment accumulator nor the `fileResults` accumulator. -/
theorem reviewLoop_error_invisible
    (engine : PullRequestFile → Except Unit ReviewResult)
    (f : PullRequestFile) (hf : engine f = Except.error ()) :
    ∀ (fs1 fs2 : List PullRequestFile),
      (reviewLoop engine (fs1 ++ f :: fs2)).1 =
        (reviewLoop engine (fs1 ++ fs2)).1 ∧
      (reviewLoop engine (fs1 ++ f :: fs2)).2.1 =
        (reviewLoop engine (fs1 ++ fs2)).2.1 := by
  intro fs1
  induction fs1 with
  | nil =>
    intro fs2
    simp only [List.nil_append]
    rw [reviewLoop]
    cases hsk : skipFile f with
    | true => exact ⟨rfl, rfl⟩
    | false =>
      rw [hf]
      exact ⟨rfl, rfl⟩
  | cons g gs ih =>
    intro fs2
    simp only [List.cons_append, reviewLoop]
    cases hsk : skipFile g with
    | true => exact ih fs2
    | false =>
      cases heng : engine g with
      | ok result =>
        exact ⟨congrArg (fun l => (reviewFile g result).comments ++ l) (ih fs2).1,
               congrArg (List.cons _) (ih fs2).2⟩
      | error e =>
        exact ih fs2

/-- C6: when the review of one file fails irrecoverably (the engine
oracle returns an error), the orchestrator's loop catches it and
continues: the failing file contributes no comment and no per-file
result (so it is not counted in `filesReviewed`), the remaining files
are processed exactly as if the failing file were absent, and the run
still terminates in a report rather than aborting. -/
theorem failing_file_contributes_nothing
    (engine : PullRequestFile → Except Unit ReviewResult)
    (fs1 fs2 : List PullRequestFile) (f : PullRequestFile)
    (cfg : Config) (os : String)
    (hf : engine f = Except.error ()) (hm : cfg.maxFiles ≤ 0) :
    (reviewLoop engine (fs1 ++ f :: fs2)).1 =
      (reviewLoop engine (fs1 ++ fs2)).1 ∧
    (reviewLoop engine (fs1 ++ f :: fs2)).2.1 =
      (reviewLoop engine (fs1 ++ fs2)).2.1 ∧
    (runReview cfg (fs1 ++ f :: fs2) engine os).1.filesReviewed =
      (runReview cfg (fs1 ++ fs2) engine os).1.filesReviewed := by
  refine ⟨(reviewLoop_error_invisible engine f hf fs1 fs2).1,
          (reviewLoop_error_invisible engine f hf fs1 fs2).2, ?_⟩
  have hnlt : ¬ 0 < cfg.maxFiles := by omega
  have hlen1 : ¬ (fs1 ++ f :: fs2).length = 0 := by simp
  by_cases hlen2 : (fs1 ++ fs2).length = 0
  · have hnil : fs1 ++ fs2 = [] := List.length_eq_zero.mp hlen2
    simp only [runReview, if_neg hlen1, if_pos hlen2, if_neg hnlt]
    rw [(reviewLoop_error_invisible engine f hf fs1 fs2).2, hnil]
    rfl
  · simp only [runReview, if_neg hlen1, if_neg hlen2, if_neg hnlt]
    rw [(reviewLoop_error_invisible engine f hf fs1 fs2).2]

/-- C6 witness: the theorem evaluated with a one-file list whose
single file always fails. -/
theorem failing_file_contributes_nothing_witness :
    engineAlwaysFails fileSmall = Except.error () ∧
    ({ maxFiles := 0, postAsReview := true : Config }.maxFiles ≤ 0) ∧
    ((reviewLoop engineAlwaysFails ([] ++ fileSmall :: [])).1 =
        (reviewLoop engineAlwaysFails ([] ++ [])).1 ∧
      (reviewLoop engineAlwaysFails ([] ++ fileSmall :: [])).2.1 =
        (reviewLoop engineAlwaysFails ([] ++ [])).2.1 ∧
      (runReview { maxFiles := 0, postAsReview := true }
            ([] ++ fileSmall :: []) engineAlwaysFails "o").1.filesReviewed =
        (runReview { maxFiles := 0, postAsReview := true }
            ([] ++ []) engineAlwaysFails "o").1.filesReviewed) :=
  ⟨rfl, by decide,
    failing_file_contributes_nothing engineAlwaysFails [] [] fileSmall
      { maxFiles := 0, postAsReview := true } "o" rfl (by decide)⟩

/-! ## C8: `maxFiles` limiting -/

/-- The length of the per-file result list is the number of
non-skipped files whose engine call succeeds. -/
theorem reviewLoop_results_length
    (engine : PullRequestFile → Except Unit ReviewResult) :
    ∀ fs : List PullRequestFile,
      ((reviewLoop engine fs).2.1).length =
        (fs.filter (fun f => !skipFile f && engineOk engine f)).length := by
  intro fs
  induction fs with
  | nil => rfl
  | cons f rest ih =>
    rw [reviewLoop, List.filter_cons]
    cases hsk : skipFile f with
    | true => simpa using ih
    | false =>
      cases heng : engine f with
      | ok result =>
        have hok : engineOk engine f = true := by rw [engineOk, heng]
        simp only [hsk, hok, Bool.not_false, Bool.true_and, if_true]
        simpa using ih
      | error e =>
        have hok : engineOk engine f = false := by rw [engineOk, heng]
        simp only [hsk, hok, Bool.not_false, Bool.true_and, Bool.and_false, if_false]
        simpa using ih

/-- C8: when `0 < maxFiles < files.length`, the run behaves exactly
as if only the first `maxFiles` files had been fetched — identical
comments, per-file results, statistics and call trace — except that
`totalFiles` still reports the pre-limit count; and `filesReviewed`
counts exactly the files among the first `maxFiles` that are eligible
(not removed, patch present) and whose review completes. -/
theorem maxFiles_limits_review (cfg : Config)
    (files : List PullRequestFile)
    (engine : PullRequestFile → Except Unit ReviewResult) (os : String)
    (h1 : 0 < cfg.maxFiles) (h2 : cfg.maxFiles.toNat < files.length) :
    runReview cfg files engine os =
      ({ (runReview cfg (files.take cfg.maxFiles.toNat) engine os).1 with
          totalFiles := files.length },
        (runReview cfg (files.take cfg.maxFiles.toNat) engine os).2) ∧
    (runReview cfg files engine os).1.filesReviewed =
      ((files.take cfg.maxFiles.toNat).filter
        (fun f => !skipFile f && engineOk engine f)).length := by
  have hne : ¬ files.length = 0 := by omega
  have htk : (files.take cfg.maxFiles.toNat).length = cfg.maxFiles.toNat := by
    rw [List.length_take]
    omega
  have hne2 : ¬ (files.take cfg.maxFiles.toNat).length = 0 := by
    rw [htk]
    omega
  constructor
  · simp only [runReview, if_neg hne, if_neg hne2, if_pos h1, List.take_take, min_self]
  · simp only [runReview, if_neg hne, if_pos h1]
    exact reviewLoop_results_length engine (files.take cfg.maxFiles.toNat)

/-- C8 witness: `maxFiles = 2` with five eligible changed files. -/
theorem maxFiles_limits_review_witness :
    (0 : Int) < 2 ∧ (2 : Int).toNat < filesFive.length ∧
    (runReview { maxFiles := 2, postAsReview := true } filesFive engineClean "o" =
        ({ (runReview { maxFiles := 2, postAsReview := true }
              (filesFive.take (2 : Int).toNat) engineClean "o").1 with
            totalFiles := filesFive.length },
          (runReview { maxFiles := 2, postAsReview := true }
              (filesFive.take (2 : Int).toNat) engineClean "o").2) ∧
      (runReview { maxFiles := 2, postAsReview := true } filesFive
            engineClean "o").1.filesReviewed =
        ((filesFive.take (2 : Int).toNat).filter
          (fun f => !skipFile f && engineOk engineClean f)).length) :=
  ⟨by decide, by decide,
    maxFiles_limits_review { maxFiles := 2, postAsReview := true } filesFive
      engineClean "o" (by decide) (by decide)⟩

/-! ## C4: what actually happens to issues with no severity -/

/-- C4 counterexample: a validated issue with no `severity` field is
counted in none of the three buckets — in particular not in the
{suggestion, info} bucket — and its comment is rendered with the
default 📝 marker, not the info marker ℹ️. -/
theorem missing_severity_not_info :
    (reviewFile fileSmall resNoSeverity).criticalCount = 0 ∧
    (reviewFile fileSmall resNoSeverity).warningCount = 0 ∧
    (reviewFile fileSmall resNoSeverity).suggestionCount = 0 ∧
    getSeverityEmoji none = "📝" ∧
    getSeverityEmoji (some "info") = "ℹ️" ∧
    (reviewFile fileSmall resNoSeverity).comments.map (fun c => c.body) =
      ["📝 \nmsg"] ∧
    ("📝 \nmsg" : String) ≠ "ℹ️ \nmsg" := by
  decide

/-- Every produced comment's body is the rendered body of one of the
input issues. -/
theorem createReviewComments_body_mem (filePath patch : String) :
    ∀ (issues : List ReviewIssue), ∀ c ∈ createReviewComments filePath issues patch,
      ∃ i ∈ issues, c.body = commentBody i := by
  intro issues
  induction issues with
  | nil =>
    intro c hc
    simp [createReviewComments] at hc
  | cons i rest ih =>
    intro c hc
    simp only [createReviewComments, List.foldr_cons] at hc
    cases hmap : mapLineToDiff i.line (splitNewlines patch) with
    | none =>
      rw [hmap] at hc
      obtain ⟨j, hj, hb⟩ := ih c hc
      exact ⟨j, List.mem_cons_of_mem _ hj, hb⟩
    | some n =>
      rw [hmap] at hc
      rcases List.mem_cons.mp hc with hceq | hcm
      · exact ⟨i, List.mem_cons_self _ _, by rw [hceq]⟩
      · obtain ⟨j, hj, hb⟩ := ih c hcm
        exact ⟨j, List.mem_cons_of_mem _ hj, hb⟩

/-- The rendered body of a severity-less issue starts with the default
📝 marker. -/
theorem commentBody_default_marker (i : ReviewIssue) (hs : i.severity = none) :
    ∃ r2 : String, commentBody i = "📝 " ++ r2 := by
  unfold commentBody
  rw [hs]
  have hemoji : getSeverityEmoji none = "📝" := rfl
  rw [hemoji]
  have hne : ¬ ("📝 " ++ categoryLabel i.category) = "" := by
    intro h
    have h2 := congrArg String.length h
    rw [String.length_append] at h2
    have e1 : ("📝 " : String).length = 2 := rfl
    have e2 : ("" : String).length = 0 := rfl
    omega
  simp only [List.filter_cons, List.filter_nil]
  have hd1 : decide (("📝" ++ " " ++ categoryLabel i.category : String) ≠ "") = true :=
    decide_eq_true hne
  have hd2 : decide (("" : String) ≠ "") = false := rfl
  by_cases hm : i.message = ""
  · rw [hm, hd1, hd2]
    exact ⟨categoryLabel i.category, rfl⟩
  · have hd3 : decide (i.message ≠ "") = true := decide_eq_true hm
    rw [hd1, hd2, hd3]
    refine ⟨categoryLabel i.category ++ "\n" ++ i.message, ?_⟩
    show ("📝" ++ " " ++ categoryLabel i.category) ++ "\n" ++ i.message = _
    simp [String.append_assoc]

/-- C4 amended: a validated issue with no `severity` field is not
assigned an info-equivalent severity; it is tallied into none of the
three counting buckets, and its comment body is rendered with the
default 📝 marker (which differs from the ℹ️ info marker). -/
theorem missing_severity_no_bucket_default_marker (file : PullRequestFile)
    (res : ReviewResult) (hall : ∀ i ∈ res.reviews, i.severity = none) :
    (reviewFile file res).criticalCount = 0 ∧
    (reviewFile file res).warningCount = 0 ∧
    (reviewFile file res).suggestionCount = 0 ∧
    ∀ c ∈ (reviewFile file res).comments, ∃ r2 : String, c.body = "📝 " ++ r2 := by
  refine ⟨?_, ?_, ?_, ?_⟩
  · show (res.reviews.filter (fun r => r.severity = some "critical")).length = 0
    rw [List.length_eq_zero, List.filter_eq_nil_iff]
    intro i hi
    simp [hall i hi]
  · show (res.reviews.filter (fun r => r.severity = some "warning")).length = 0
    rw [List.length_eq_zero, List.filter_eq_nil_iff]
    intro i hi
    simp [hall i hi]
  · show (res.reviews.filter
      (fun r => r.severity = some "suggestion" || r.severity = some "info")).length = 0
    rw [List.length_eq_zero, List.filter_eq_nil_iff]
    intro i hi
    simp [hall i hi]
  · intro c hc
    obtain ⟨i, hi, hb⟩ :=
      createReviewComments_body_mem file.filename (file.patch.getD "")
        res.reviews c hc
    obtain ⟨r2, hr2⟩ := commentBody_default_marker i (hall i hi)
    exact ⟨r2, by rw [hb, hr2]⟩

/-- C4 witness: the amended statement on the concrete one-issue,
severity-less review of `fileSmall`. -/
theorem missing_severity_no_bucket_witness :
    (∀ i ∈ resNoSeverity.reviews, i.severity = none) ∧
    ((reviewFile fileSmall resNoSeverity).criticalCount = 0 ∧
      (reviewFile fileSmall resNoSeverity).warningCount = 0 ∧
      (reviewFile fileSmall resNoSeverity).suggestionCount = 0 ∧
      ∀ c ∈ (reviewFile fileSmall resNoSeverity).comments,
        ∃ r2 : String, c.body = "📝 " ++ r2) :=
  ⟨by decide,
    missing_severity_no_bucket_default_marker fileSmall resNoSeverity (by decide)⟩

/-! ## C1: `mapLineToDiff` on valid unified diffs

Auxiliary facts about the canonical decimal rendering and its
interaction with the source's digit scanning. -/

theorem digitChar_isDigit (n : Nat) : (digitChar n).isDigit = true := by
  match n with
  | 0 | 1 | 2 | 3 | 4 | 5 | 6 | 7 | 8 => rfl
  | n + 9 => rfl

theorem digitChar_val (n : Nat) (h : n < 10) : (digitChar n).toNat - 48 = n := by
  match n with
  | 0 | 1 | 2 | 3 | 4 | 5 | 6 | 7 | 8 | 9 => rfl
  | n + 10 => exact absurd h (by omega)

theorem natDigitsAux_indep (f1 : Nat) :
    ∀ (f2 n : Nat), n < f1 → n < f2 → natDigitsAux f1 n = natDigitsAux f2 n := by
  induction f1 with
  | zero => intro f2 n h1; omega
  | succ a ih =>
    intro f2 n h1 h2
    match f2, h2 with
    | b + 1, h2 =>
      rw [natDigitsAux, natDigitsAux]
      by_cases hn : n < 10
      · rw [if_pos hn, if_pos hn]
      · rw [if_neg hn, if_neg hn]
        have hd : n / 10 < n := Nat.div_lt_self (by omega) (by omega)
        rw [ih b (n / 10) (by omega) (by omega)]

theorem natDigits_eq (n : Nat) :
    natDigits n =
      if n < 10 then [digitChar n]
      else natDigits (n / 10) ++ [digitChar (n % 10)] := by
  rw [natDigits, natDigitsAux]
  by_cases hn : n < 10
  · rw [if_pos hn, if_pos hn]
  · rw [if_neg hn, if_neg hn, natDigits]
    have hd : n / 10 < n := Nat.div_lt_self (by omega) (by omega)
    rw [natDigitsAux_indep n (n / 10 + 1) (n / 10) (by omega) (by omega)]

theorem natDigits_ne_nil (n : Nat) : natDigits n ≠ [] := by
  rw [natDigits_eq]
  by_cases hn : n < 10
  · rw [if_pos hn]; simp
  · rw [if_neg hn]; simp

theorem natDigits_all_digit (n : Nat) : ∀ c ∈ natDigits n, c.isDigit = true := by
  induction n using Nat.strong_induction_on with
  | _ n ih =>
    rw [natDigits_eq]
    by_cases hn : n < 10
    · rw [if_pos hn]
      intro c hc
      rw [List.mem_singleton.mp hc]
      exact digitChar_isDigit n
    · rw [if_neg hn]
      intro c hc
      rcases List.mem_append.mp hc with hc1 | hc2
      · exact ih (n / 10) (Nat.div_lt_self (by omega) (by omega)) c hc1
      · rw [List.mem_singleton.mp hc2]
        exact digitChar_isDigit (n % 10)

theorem parseDigits_natDigits_general (n : Nat) :
    ∀ a : Nat, (natDigits n).foldl (fun x c => 10 * x + (c.toNat - 48)) a =
      a * 10 ^ (natDigits n).length + n := by
  induction n using Nat.strong_induction_on with
  | _ n ih =>
    intro a
    rw [natDigits_eq]
    by_cases hn : n < 10
    · rw [if_pos hn]
      simp only [List.foldl_cons, List.foldl_nil, List.length_cons, List.length_nil]
      rw [digitChar_val n hn]
      ring
    · rw [if_neg hn]
      rw [List.foldl_append, List.length_append]
      rw [ih (n / 10) (Nat.div_lt_self (by omega) (by omega)) a]
      simp only [List.foldl_cons, List.foldl_nil, List.length_cons, List.length_nil]
      rw [digitChar_val (n % 10) (Nat.mod_lt n (by omega))]
      rw [pow_add, pow_one]
      have := Nat.div_add_mod n 10
      ring_nf
      omega

theorem parseDigits_natDigits (n : Nat) : parseDigits (natDigits n) = n := by
  rw [parseDigits, parseDigits_natDigits_general n 0]
  simp

theorem takeWhile_all_append (p : Char → Bool) (l : List Char) (c : Char)
    (r : List Char) (hall : ∀ x ∈ l, p x = true) (hc : p c = false) :
    (l ++ c :: r).takeWhile p = l ∧ (l ++ c :: r).dropWhile p = c :: r := by
  induction l with
  | nil =>
    simp [List.takeWhile_cons, List.dropWhile_cons, hc]
  | cons x xs ih =>
    have hx : p x = true := hall x (List.mem_cons_self x xs)
    have ih2 := ih (fun y hy => hall y (List.mem_cons_of_mem x hy))
    simp [List.takeWhile_cons, List.dropWhile_cons, hx, ih2.1, ih2.2]

/-- Greedy `\d+` on a digit run followed by a non-digit. -/
theorem takeDigits1_run (l : List Char) (c : Char) (r : List Char)
    (hne : l ≠ []) (hall : ∀ x ∈ l, x.isDigit = true) (hc : c.isDigit = false) :
    takeDigits1 (l ++ c :: r) = some (l, c :: r) := by
  match l, hne with
  | x :: xs, _ =>
    have hx : x.isDigit = true := hall x (List.mem_cons_self x xs)
    have hrest := takeWhile_all_append Char.isDigit xs c r
      (fun y hy => hall y (List.mem_cons_of_mem x hy)) hc
    simp only [List.cons_append, takeDigits1, hx, if_true]
    rw [hrest.1, hrest.2]

theorem comma_not_digit : (',' : Char).isDigit = false := rfl

theorem space_not_digit : (' ' : Char).isDigit = false := rfl

theorem expectS_self_append (p : List Char) : ∀ s, expectS p (p ++ s) = some s := by
  induction p with
  | nil => intro s; rfl
  | cons c cs ih =>
    intro s
    simp only [List.cons_append, expectS, if_pos rfl]
    exact ih s

theorem expectS_space_plus (s : List Char) :
    expectS [' ', '+'] (' ' :: '+' :: s) = some s := rfl

theorem expectS_space_at_at (s : List Char) :
    expectS [' ', '@', '@'] (' ' :: '@' :: '@' :: s) = some s := rfl

/-- The header pattern matches a canonical `@@ -a,b +c,d @@` header at
position 0, capturing the third digit run. -/
theorem matchAt_canonical (d1 d2 d3 d4 : List Char)
    (h1 : d1 ≠ []) (ha1 : ∀ x ∈ d1, x.isDigit = true)
    (h2 : d2 ≠ []) (ha2 : ∀ x ∈ d2, x.isDigit = true)
    (h3 : d3 ≠ []) (ha3 : ∀ x ∈ d3, x.isDigit = true)
    (h4 : d4 ≠ []) (ha4 : ∀ x ∈ d4, x.isDigit = true) :
    matchAt (("@@ -").data ++ (d1 ++ ',' :: (d2 ++ ' ' :: '+' ::
      (d3 ++ ',' :: (d4 ++ [' ', '@', '@']))))) = some (parseDigits d3) := by
  simp only [matchAt, expectS_self_append, afterNum,
    takeDigits1_run d1 ',' (d2 ++ ' ' :: '+' :: (d3 ++ ',' :: (d4 ++ [' ', '@', '@'])))
      h1 ha1 comma_not_digit,
    takeDigits1_run d2 ' ' ('+' :: (d3 ++ ',' :: (d4 ++ [' ', '@', '@'])))
      h2 ha2 space_not_digit,
    takeDigits1_run d3 ',' (d4 ++ [' ', '@', '@']) h3 ha3 comma_not_digit,
    takeDigits1_run d4 ' ' ['@', '@'] h4 ha4 space_not_digit,
    expectS_space_plus, expectS_space_at_at]

/-- The canonical hunk header is recognised with capture `newStart`. -/
theorem matchAt_header (h : Hunk) : matchAt (headerChars h) = some h.newStart := by
  have hc := matchAt_canonical (natDigits h.oldStart) (natDigits h.oldCount)
    (natDigits h.newStart) (natDigits h.newCount)
    (natDigits_ne_nil _) (natDigits_all_digit _)
    (natDigits_ne_nil _) (natDigits_all_digit _)
    (natDigits_ne_nil _) (natDigits_all_digit _)
    (natDigits_ne_nil _) (natDigits_all_digit _)
  rw [show headerChars h = ("@@ -").data ++ (natDigits h.oldStart ++ ',' ::
      (natDigits h.oldCount ++ ' ' :: '+' ::
        (natDigits h.newStart ++ ',' ::
          (natDigits h.newCount ++ [' ', '@', '@'])))) from rfl]
  rw [hc, parseDigits_natDigits]

theorem findHunk_of_matchAt (s : List Char) (n : Nat) (hs : s ≠ [])
    (hm : matchAt s = some n) : findHunk s = some n := by
  match s, hs with
  | c :: cs, _ =>
    simp only [findHunk, hm]

theorem headerChars_ne_nil (h : Hunk) : headerChars h ≠ [] := by
  simp [headerChars]

theorem findHunk_header (h : Hunk) : findHunk (headerChars h) = some h.newStart :=
  findHunk_of_matchAt (headerChars h) h.newStart (headerChars_ne_nil h) (matchAt_header h)

theorem countNew_cons_added (c : String) (ls : List HunkLine) :
    countNew (HunkLine.added c :: ls) = countNew ls + 1 := by
  simp [countNew, List.filter_cons, HunkLine.counted]

theorem countNew_cons_removed (c : String) (ls : List HunkLine) :
    countNew (HunkLine.removed c :: ls) = countNew ls := by
  simp [countNew, List.filter_cons, HunkLine.counted]

theorem countNew_cons_context (c : String) (ls : List HunkLine) :
    countNew (HunkLine.context c :: ls) = countNew ls + 1 := by
  simp [countNew, List.filter_cons, HunkLine.counted]

/-- Lines before the first hunk header are ignored by the scan. -/
theorem go_skip_no_hunk (t : Int) (ls : List String) :
    ∀ (rest : List String) (i : Nat) (cur : Int),
      (∀ s ∈ ls, findHunk s.data = none) →
      mapLineToDiffGo t (ls ++ rest) i cur false =
        mapLineToDiffGo t rest (i + ls.length) cur false := by
  induction ls with
  | nil =>
    intro rest i cur _
    simp
  | cons s ls2 ih =>
    intro rest i cur hno
    have hidx : i + (s :: ls2).length = i + 1 + ls2.length := by
      simp only [List.length_cons]
      omega
    rw [hidx, List.cons_append, mapLineToDiffGo, hno s (List.mem_cons_self s ls2)]
    show mapLineToDiffGo t (ls2 ++ rest) (i + 1) cur false =
      mapLineToDiffGo t rest (i + 1 + ls2.length) cur false
    exact ih rest (i + 1) cur (fun y hy => hno y (List.mem_cons_of_mem s hy))

/-- Processing one canonical hunk header: enter hunk state and reset
the counter to `newStart - 1`. -/
theorem go_header (t : Int) (h : Hunk) (rest : List String) (i : Nat)
    (cur : Int) (b : Bool) :
    mapLineToDiffGo t (renderHeader h :: rest) i cur b =
      mapLineToDiffGo t rest (i + 1) ((h.newStart : Int) - 1) true := by
  rw [mapLineToDiffGo]
  rw [show (renderHeader h).data = headerChars h from rfl, findHunk_header h]

/-- Scanning a hunk body whose new-file numbers all stay below the
target: the counter advances by `countNew` and nothing matches. -/
theorem go_body_skip (t : Int) (ls : List HunkLine) :
    ∀ (rest : List String) (i : Nat) (c0 : Int),
      (∀ hl ∈ ls, findHunk (renderHunkLine hl).data = none) →
      c0 + (countNew ls : Int) < t →
      mapLineToDiffGo t (ls.map renderHunkLine ++ rest) i c0 true =
        mapLineToDiffGo t rest (i + ls.length) (c0 + (countNew ls : Int)) true := by
  induction ls with
  | nil =>
    intro rest i c0 _ _
    simp [countNew]
  | cons hl tl ih =>
    intro rest i c0 hno hlt
    have hnotl : ∀ x ∈ tl, findHunk (renderHunkLine x).data = none :=
      fun y hy => hno y (List.mem_cons_of_mem hl hy)
    have hidx : i + (hl :: tl).length = i + 1 + tl.length := by
      simp only [List.length_cons]
      omega
    cases hl with
    | added c =>
      have hcnt : countNew (HunkLine.added c :: tl) = countNew tl + 1 :=
        countNew_cons_added c tl
      rw [hcnt] at hlt
      push_cast at hlt
      rw [hidx, hcnt, List.map_cons, List.cons_append, mapLineToDiffGo,
          hno (HunkLine.added c) (List.mem_cons_self _ _)]
      show (if c0 + 1 = t then some (i + 1)
            else mapLineToDiffGo t (tl.map renderHunkLine ++ rest) (i + 1) (c0 + 1) true) =
        mapLineToDiffGo t rest (i + 1 + tl.length) (c0 + ((countNew tl + 1 : Nat) : Int)) true
      rw [if_neg (by omega)]
      rw [ih rest (i + 1) (c0 + 1) hnotl (by omega)]
      have e2 : c0 + 1 + (countNew tl : Int) = c0 + ((countNew tl + 1 : Nat) : Int) := by
        push_cast
        ring
      rw [e2]
    | removed c =>
      have hcnt : countNew (HunkLine.removed c :: tl) = countNew tl :=
        countNew_cons_removed c tl
      rw [hcnt] at hlt
      rw [hidx, hcnt, List.map_cons, List.cons_append, mapLineToDiffGo,
          hno (HunkLine.removed c) (List.mem_cons_self _ _)]
      show mapLineToDiffGo t (tl.map renderHunkLine ++ rest) (i + 1) c0 true =
        mapLineToDiffGo t rest (i + 1 + tl.length) (c0 + (countNew tl : Int)) true
      exact ih rest (i + 1) c0 hnotl hlt
    | context c =>
      have hcnt : countNew (HunkLine.context c :: tl) = countNew tl + 1 :=
        countNew_cons_context c tl
      rw [hcnt] at hlt
      push_cast at hlt
      rw [hidx, hcnt, List.map_cons, List.cons_append, mapLineToDiffGo,
          hno (HunkLine.context c) (List.mem_cons_self _ _)]
      show mapLineToDiffGo t (tl.map renderHunkLine ++ rest) (i + 1) (c0 + 1) true =
        mapLineToDiffGo t rest (i + 1 + tl.length) (c0 + ((countNew tl + 1 : Nat) : Int)) true
      rw [ih rest (i + 1) (c0 + 1) hnotl (by omega)]
      have e2 : c0 + 1 + (countNew tl : Int) = c0 + ((countNew tl + 1 : Nat) : Int) := by
        push_cast
        ring
      rw [e2]

/-- Scanning a whole rendered hunk that lies strictly below the
target line. -/
theorem go_hunk_skip (t : Int) (h : Hunk) (rest : List String) (i : Nat)
    (cur : Int) (b : Bool)
    (hno : ∀ hl ∈ h.lines, findHunk (renderHunkLine hl).data = none)
    (hlt : (h.newStart : Int) - 1 + (countNew h.lines : Int) < t) :
    mapLineToDiffGo t (renderHunk h ++ rest) i cur b =
      mapLineToDiffGo t rest (i + 1 + h.lines.length)
        ((h.newStart : Int) - 1 + (countNew h.lines : Int)) true := by
  show mapLineToDiffGo t (renderHeader h :: (h.lines.map renderHunkLine ++ rest)) i cur b = _
  rw [go_header, go_body_skip t h.lines rest (i + 1) ((h.newStart : Int) - 1) hno hlt]

/-- Scanning a block of rendered hunks all lying strictly below the
target line: the scan passes through them without matching. -/
theorem go_hunks_skip (t : Int) (hs : List Hunk) :
    ∀ (rest : List String) (i : Nat) (cur : Int) (b : Bool),
      (∀ h ∈ hs, ∀ hl ∈ h.lines, findHunk (renderHunkLine hl).data = none) →
      (∀ h ∈ hs, (h.newStart : Int) - 1 + (countNew h.lines : Int) < t) →
      ∃ cur2 b2,
        mapLineToDiffGo t ((hs.map renderHunk).flatten ++ rest) i cur b =
          mapLineToDiffGo t rest (i + ((hs.map renderHunk).flatten).length) cur2 b2 := by
  induction hs with
  | nil =>
    intro rest i cur b _ _
    exact ⟨cur, b, by simp⟩
  | cons h hs2 ih =>
    intro rest i cur b hnh hlt
    obtain ⟨cur2, b2, hrec⟩ := ih rest (i + 1 + h.lines.length)
      ((h.newStart : Int) - 1 + (countNew h.lines : Int)) true
      (fun x hx => hnh x (List.mem_cons_of_mem h hx))
      (fun x hx => hlt x (List.mem_cons_of_mem h hx))
    refine ⟨cur2, b2, ?_⟩
    rw [List.map_cons, List.flatten_cons, List.append_assoc]
    rw [go_hunk_skip t h _ i cur b (hnh h (List.mem_cons_self _ _))
      (hlt h (List.mem_cons_self _ _))]
    rw [hrec]
    have hidx : i + 1 + h.lines.length + ((hs2.map renderHunk).flatten).length =
        i + (renderHunk h ++ (hs2.map renderHunk).flatten).length := by
      simp only [List.length_append, renderHunk, List.length_cons, List.length_map]
      omega
    rw [hidx]

/-- Scanning a hunk body that contains the target as an added line at
body index `j`: the scan returns exactly that rendered line's 1-based
index. -/
theorem go_body_target (t : Int) (ls : List HunkLine) :
    ∀ (rest : List String) (i : Nat) (c0 : Int) (j : Nat) (hj : j < ls.length)
      (c : String),
      (∀ hl ∈ ls, findHunk (renderHunkLine hl).data = none) →
      ls.get ⟨j, hj⟩ = HunkLine.added c →
      c0 + (countNew (ls.take j) : Int) + 1 = t →
      mapLineToDiffGo t (ls.map renderHunkLine ++ rest) i c0 true =
        some (i + j + 1) := by
  induction ls with
  | nil =>
    intro rest i c0 j hj
    simp at hj
  | cons hl tl ih =>
    intro rest i c0 j hj c hno hget hnum
    have hnotl : ∀ x ∈ tl, findHunk (renderHunkLine x).data = none :=
      fun y hy => hno y (List.mem_cons_of_mem hl hy)
    cases j with
    | zero =>
      have hhl : hl = HunkLine.added c := by
        simpa using hget
      subst hhl
      rw [List.map_cons, List.cons_append, mapLineToDiffGo,
          hno (HunkLine.added c) (List.mem_cons_self _ _)]
      show (if c0 + 1 = t then some (i + 1)
            else mapLineToDiffGo t (tl.map renderHunkLine ++ rest) (i + 1) (c0 + 1) true) =
        some (i + 0 + 1)
      have ht : c0 + 1 = t := by
        rw [List.take_zero] at hnum
        simpa [countNew] using hnum
      rw [if_pos ht]
    | succ j2 =>
      have hj2 : j2 < tl.length := by
        rw [List.length_cons] at hj
        omega
      have hget2 : tl.get ⟨j2, hj2⟩ = HunkLine.added c := by
        simpa using hget
      rw [List.take_succ_cons] at hnum
      cases hl with
      | added c2 =>
        rw [countNew_cons_added] at hnum
        push_cast at hnum
        rw [List.map_cons, List.cons_append, mapLineToDiffGo,
            hno (HunkLine.added c2) (List.mem_cons_self _ _)]
        show (if c0 + 1 = t then some (i + 1)
              else mapLineToDiffGo t (tl.map renderHunkLine ++ rest) (i + 1) (c0 + 1) true) =
          some (i + (j2 + 1) + 1)
        rw [if_neg (by omega)]
        rw [ih rest (i + 1) (c0 + 1) j2 hj2 c hnotl hget2 (by omega)]
        congr 1
        omega
      | removed c2 =>
        rw [countNew_cons_removed] at hnum
        rw [List.map_cons, List.cons_append, mapLineToDiffGo,
            hno (HunkLine.removed c2) (List.mem_cons_self _ _)]
        show mapLineToDiffGo t (tl.map renderHunkLine ++ rest) (i + 1) c0 true =
          some (i + (j2 + 1) + 1)
        rw [ih rest (i + 1) c0 j2 hj2 c hnotl hget2 hnum]
        congr 1
        omega
      | context c2 =>
        rw [countNew_cons_context] at hnum
        push_cast at hnum
        rw [List.map_cons, List.cons_append, mapLineToDiffGo,
            hno (HunkLine.context c2) (List.mem_cons_self _ _)]
        show mapLineToDiffGo t (tl.map renderHunkLine ++ rest) (i + 1) (c0 + 1) true =
          some (i + (j2 + 1) + 1)
        rw [ih rest (i + 1) (c0 + 1) j2 hj2 c hnotl hget2 (by omega)]
        congr 1
        omega

/-- C1 amended: on every valid unified diff none of whose body lines
contains header-like text (the disclosed `NoHeaderLikeContent` side
condition about the source's unanchored regex — see the C1
counterexample for a valid diff violating it), every new-file line
number that is present as an **added** line is mapped to the 1-based
raw position of exactly that rendered added line. -/
theorem mapLineToDiff_finds_added_line (d : UnifiedDiff) (t : Nat) (c : String)
    (hwf : DiffWF d) (hnh : NoHeaderLikeContent d) (hat : AddedAt d t c) :
    ∃ p, mapLineToDiff (t : Int) (renderDiff d) = some p ∧
      (renderDiff d)[p - 1]? = some (renderHunkLine (HunkLine.added c)) := by
  obtain ⟨h, hmem, j, hget, hnum⟩ := hat
  obtain ⟨hs1, hs2, hsplit⟩ := List.append_of_mem hmem
  obtain ⟨hpre, hhw, hpair⟩ := hwf
  have hno : ∀ hl ∈ h.lines, findHunk (renderHunkLine hl).data = none := hnh h hmem
  have htle : h.newStart ≤ t := by omega
  have hbefore : ∀ h1 ∈ hs1,
      (h1.newStart : Int) - 1 + (countNew h1.lines : Int) < (t : Int) := by
    intro h1 hh1
    have hp2 := hpair
    rw [hsplit] at hp2
    have hrel : h1.newStart + countNew h1.lines ≤ h.newStart :=
      (List.pairwise_append.mp hp2).2.2 h1 hh1 h (List.mem_cons_self _ _)
    omega
  have hno1 : ∀ h1 ∈ hs1, ∀ hl ∈ h1.lines,
      findHunk (renderHunkLine hl).data = none := by
    intro h1 hh1
    exact hnh h1 (by rw [hsplit]; exact List.mem_append_left _ hh1)
  have hrd : renderDiff d =
      d.preamble ++ ((hs1.map renderHunk).flatten ++
        (renderHunk h ++ (hs2.map renderHunk).flatten)) := by
    show d.preamble ++ (d.hunks.map renderHunk).flatten = _
    rw [hsplit, List.map_append, List.map_cons, List.flatten_append, List.flatten_cons]
  have hget2 : h.lines.get ⟨j.val, j.isLt⟩ = HunkLine.added c := hget
  have hnum2 : ((h.newStart : Int) - 1) + (countNew (h.lines.take j.val) : Int) + 1 =
      (t : Int) := by
    omega
  have hmap : mapLineToDiff (t : Int) (renderDiff d) =
      some (0 + d.preamble.length + ((hs1.map renderHunk).flatten).length + 1
        + j.val + 1) := by
    show mapLineToDiffGo (t : Int) (renderDiff d) 0 0 false = _
    rw [hrd]
    rw [go_skip_no_hunk (t : Int) d.preamble _ 0 0 hpre]
    obtain ⟨cur2, b2, hskip⟩ := go_hunks_skip (t : Int) hs1
      (renderHunk h ++ (hs2.map renderHunk).flatten)
      (0 + d.preamble.length) 0 false hno1 hbefore
    rw [hskip]
    show mapLineToDiffGo (t : Int)
        (renderHeader h :: (h.lines.map renderHunkLine ++ (hs2.map renderHunk).flatten))
        (0 + d.preamble.length + ((hs1.map renderHunk).flatten).length) cur2 b2 = _
    rw [go_header]
    rw [go_body_target (t : Int) h.lines ((hs2.map renderHunk).flatten)
      (0 + d.preamble.length + ((hs1.map renderHunk).flatten).length + 1)
      ((h.newStart : Int) - 1) j.val j.isLt c hno hget2 hnum2]
  have hlines : h.lines[j.val] = HunkLine.added c := by
    rw [← List.get_eq_getElem]
    exact hget2
  have hcontent : (d.preamble ++ ((hs1.map renderHunk).flatten ++
        (renderHunk h ++ (hs2.map renderHunk).flatten)))[
          0 + d.preamble.length + ((hs1.map renderHunk).flatten).length + 1
            + j.val + 1 - 1]? =
      some (renderHunkLine (HunkLine.added c)) := by
    rw [show (0 + d.preamble.length + ((hs1.map renderHunk).flatten).length + 1
          + j.val + 1 - 1) =
        d.preamble.length + (((hs1.map renderHunk).flatten).length + (1 + j.val))
      from by omega]
    rw [List.getElem?_append_right (by omega)]
    rw [show (d.preamble.length + (((hs1.map renderHunk).flatten).length + (1 + j.val))
          - d.preamble.length) =
        ((hs1.map renderHunk).flatten).length + (1 + j.val) from by omega]
    rw [List.getElem?_append_right (by omega)]
    rw [show (((hs1.map renderHunk).flatten).length + (1 + j.val)
          - ((hs1.map renderHunk).flatten).length) = j.val + 1 from by omega]
    have hlen : j.val + 1 < (renderHunk h).length := by
      have := j.isLt
      simp only [renderHunk, List.length_cons, List.length_map]
      omega
    rw [List.getElem?_append_left hlen]
    show (renderHeader h :: h.lines.map renderHunkLine)[j.val + 1]? = _
    rw [List.getElem?_cons_succ, List.getElem?_map]
    rw [List.getElem?_eq_getElem j.isLt]
    rw [hlines]
    rfl
  refine ⟨0 + d.preamble.length + ((hs1.map renderHunk).flatten).length + 1
    + j.val + 1, hmap, ?_⟩
  rw [hrd]
  exact hcontent

/-- C1 counterexample, two facets.
(1) Context lines are never matched: in the valid diff
`@@ -1,2 +1,2 @@` / ` ctx` / `+add`, new-file line 1 is present as the
context line ` ctx`, but `mapLineToDiff` returns `none` for target 1 —
the source checks the counter against the target only after added-line
increments.
(2) Even for **added** lines the claim fails on valid diffs whose body
contains header-like text: in the valid diff `diffHijack`
(`@@ -1,0 +1,2 @@` / `+x @@ -1 +100 @@` / `+y`), new-file line 2 is
present as the added line `+y`, but the unanchored header regex
misparses the first added line as a hunk header (capturing 100), the
counter jumps to 99, and the mapper returns `none`. -/
theorem context_line_never_matched :
    (DiffWF diffCtxFirst ∧ ContextAt diffCtxFirst 1 "ctx" ∧
      mapLineToDiff ((1 : Nat) : Int) (renderDiff diffCtxFirst) = none) ∧
    (DiffWF diffHijack ∧ AddedAt diffHijack 2 "y" ∧
      mapLineToDiff ((2 : Nat) : Int) (renderDiff diffHijack) = none ∧
      ¬ NoHeaderLikeContent diffHijack) :=
  ⟨⟨by decide, by decide, by decide⟩, ⟨by decide, by decide, by decide, by decide⟩⟩

/-- C1 witness: the amended statement on the spec §8 example hunk,
whose first added line "b" is new-file line 11. -/
theorem mapLineToDiff_finds_added_line_witness :
    DiffWF diffSpecExample ∧ NoHeaderLikeContent diffSpecExample ∧
    AddedAt diffSpecExample 11 "b" ∧
    (∃ p, mapLineToDiff ((11 : Nat) : Int) (renderDiff diffSpecExample) = some p ∧
      (renderDiff diffSpecExample)[p - 1]? =
        some (renderHunkLine (HunkLine.added "b"))) :=
  ⟨by decide, by decide, by decide,
    mapLineToDiff_finds_added_line diffSpecExample 11 "b"
      (by decide) (by decide) (by decide)⟩
